import Mathlib

/-!
Verification development for the `ucr-ai-planner` repository.

The repository implements a classical STRIPS-style planner in Python:
  * `expressions.py` — a formula algebra (atoms, and/or/not/imply/equals,
    conditional `when` effects, `forall`/`exists` quantifiers) together with a
    `World` (a set of ground atoms plus a dictionary of typed object sets),
    truth evaluation (`is_modeled_by`), substitution and effect application.
  * `pathfinding.py` — an A* search driver over lazily generated graphs.
  * `planner.py` — grounding of action schemas and world-set construction.

This file gives a shallow embedding of those parts of the code and proves, or
refutes, the frozen specification claims about them.  Python run-time errors
(KeyError, AttributeError, TypeError on `None`) and potential non-termination
of the mutually recursive evaluators are modelled by `Option` results driven
by an explicit fuel parameter: a `none` result means the corresponding Python
call does not return normally (or the fuel ran out).
-/

/-- Mirrors the formula class hierarchy of `expressions.py`.  `Constant` holds
a bare symbol; `Atom` holds a predicate name and argument list; `VariableSpec`
is the quantifier binder specification (a list of one or three tokens, e.g.
`["?s", "-", "Stories"]`); the remaining constructors mirror the `Or`, `And`,
`Imply`, `Equals`, `When`, `ForAll`, `Exists` and `Not` classes. -/
inductive Formula : Type where
  | const : String → Formula
  | varspec : List String → Formula
  | atom : String → List Formula → Formula
  | or : List Formula → Formula
  | and : List Formula → Formula
  | imply : Formula → Formula → Formula
  | equals : Formula → Formula → Formula
  | when : Formula → Formula → Formula
  | forAll : Formula → Formula → Formula
  | existsQ : Formula → Formula → Formula
  | not : Formula → Formula

mutual

/-- Structural decidable equality for formulas, matching Python's structural
`__eq__` on constants and atoms (`expressions.py` lines 67–68 and 115–117)
extended structurally to every variant. -/
def Formula.decEq : (a b : Formula) → Decidable (a = b)
  | .const x0, .const y0 =>
    match instDecidableEqString x0 y0 with
    | isTrue h0 => isTrue (by rw [h0])
    | isFalse h0 => isFalse (fun hh => h0 (by cases hh; rfl))
  | .const _, .varspec _ => isFalse (fun h => Formula.noConfusion h)
  | .const _, .atom _ _ => isFalse (fun h => Formula.noConfusion h)
  | .const _, .or _ => isFalse (fun h => Formula.noConfusion h)
  | .const _, .and _ => isFalse (fun h => Formula.noConfusion h)
  | .const _, .imply _ _ => isFalse (fun h => Formula.noConfusion h)
  | .const _, .equals _ _ => isFalse (fun h => Formula.noConfusion h)
  | .const _, .when _ _ => isFalse (fun h => Formula.noConfusion h)
  | .const _, .forAll _ _ => isFalse (fun h => Formula.noConfusion h)
  | .const _, .existsQ _ _ => isFalse (fun h => Formula.noConfusion h)
  | .const _, .not _ => isFalse (fun h => Formula.noConfusion h)
  | .varspec _, .const _ => isFalse (fun h => Formula.noConfusion h)
  | .varspec x0, .varspec y0 =>
    match instDecidableEqList x0 y0 with
    | isTrue h0 => isTrue (by rw [h0])
    | isFalse h0 => isFalse (fun hh => h0 (by cases hh; rfl))
  | .varspec _, .atom _ _ => isFalse (fun h => Formula.noConfusion h)
  | .varspec _, .or _ => isFalse (fun h => Formula.noConfusion h)
  | .varspec _, .and _ => isFalse (fun h => Formula.noConfusion h)
  | .varspec _, .imply _ _ => isFalse (fun h => Formula.noConfusion h)
  | .varspec _, .equals _ _ => isFalse (fun h => Formula.noConfusion h)
  | .varspec _, .when _ _ => isFalse (fun h => Formula.noConfusion h)
  | .varspec _, .forAll _ _ => isFalse (fun h => Formula.noConfusion h)
  | .varspec _, .existsQ _ _ => isFalse (fun h => Formula.noConfusion h)
  | .varspec _, .not _ => isFalse (fun h => Formula.noConfusion h)
  | .atom _ _, .const _ => isFalse (fun h => Formula.noConfusion h)
  | .atom _ _, .varspec _ => isFalse (fun h => Formula.noConfusion h)
  | .atom x0 x1, .atom y0 y1 =>
    match instDecidableEqString x0 y0, Formula.decEqList x1 y1 with
    | isTrue h0, isTrue h1 => isTrue (by rw [h0, h1])
    | isFalse h0, _ => isFalse (fun hh => h0 (by cases hh; rfl))
    | _, isFalse h1 => isFalse (fun hh => h1 (by cases hh; rfl))
  | .atom _ _, .or _ => isFalse (fun h => Formula.noConfusion h)
  | .atom _ _, .and _ => isFalse (fun h => Formula.noConfusion h)
  | .atom _ _, .imply _ _ => isFalse (fun h => Formula.noConfusion h)
  | .atom _ _, .equals _ _ => isFalse (fun h => Formula.noConfusion h)
  | .atom _ _, .when _ _ => isFalse (fun h => Formula.noConfusion h)
  | .atom _ _, .forAll _ _ => isFalse (fun h => Formula.noConfusion h)
  | .atom _ _, .existsQ _ _ => isFalse (fun h => Formula.noConfusion h)
  | .atom _ _, .not _ => isFalse (fun h => Formula.noConfusion h)
  | .or _, .const _ => isFalse (fun h => Formula.noConfusion h)
  | .or _, .varspec _ => isFalse (fun h => Formula.noConfusion h)
  | .or _, .atom _ _ => isFalse (fun h => Formula.noConfusion h)
  | .or x0, .or y0 =>
    match Formula.decEqList x0 y0 with
    | isTrue h0 => isTrue (by rw [h0])
    | isFalse h0 => isFalse (fun hh => h0 (by cases hh; rfl))
  | .or _, .and _ => isFalse (fun h => Formula.noConfusion h)
  | .or _, .imply _ _ => isFalse (fun h => Formula.noConfusion h)
  | .or _, .equals _ _ => isFalse (fun h => Formula.noConfusion h)
  | .or _, .when _ _ => isFalse (fun h => Formula.noConfusion h)
  | .or _, .forAll _ _ => isFalse (fun h => Formula.noConfusion h)
  | .or _, .existsQ _ _ => isFalse (fun h => Formula.noConfusion h)
  | .or _, .not _ => isFalse (fun h => Formula.noConfusion h)
  | .and _, .const _ => isFalse (fun h => Formula.noConfusion h)
  | .and _, .varspec _ => isFalse (fun h => Formula.noConfusion h)
  | .and _, .atom _ _ => isFalse (fun h => Formula.noConfusion h)
  | .and _, .or _ => isFalse (fun h => Formula.noConfusion h)
  | .and x0, .and y0 =>
    match Formula.decEqList x0 y0 with
    | isTrue h0 => isTrue (by rw [h0])
    | isFalse h0 => isFalse (fun hh => h0 (by cases hh; rfl))
  | .and _, .imply _ _ => isFalse (fun h => Formula.noConfusion h)
  | .and _, .equals _ _ => isFalse (fun h => Formula.noConfusion h)
  | .and _, .when _ _ => isFalse (fun h => Formula.noConfusion h)
  | .and _, .forAll _ _ => isFalse (fun h => Formula.noConfusion h)
  | .and _, .existsQ _ _ => isFalse (fun h => Formula.noConfusion h)
  | .and _, .not _ => isFalse (fun h => Formula.noConfusion h)
  | .imply _ _, .const _ => isFalse (fun h => Formula.noConfusion h)
  | .imply _ _, .varspec _ => isFalse (fun h => Formula.noConfusion h)
  | .imply _ _, .atom _ _ => isFalse (fun h => Formula.noConfusion h)
  | .imply _ _, .or _ => isFalse (fun h => Formula.noConfusion h)
  | .imply _ _, .and _ => isFalse (fun h => Formula.noConfusion h)
  | .imply x0 x1, .imply y0 y1 =>
    match Formula.decEq x0 y0, Formula.decEq x1 y1 with
    | isTrue h0, isTrue h1 => isTrue (by rw [h0, h1])
    | isFalse h0, _ => isFalse (fun hh => h0 (by cases hh; rfl))
    | _, isFalse h1 => isFalse (fun hh => h1 (by cases hh; rfl))
  | .imply _ _, .equals _ _ => isFalse (fun h => Formula.noConfusion h)
  | .imply _ _, .when _ _ => isFalse (fun h => Formula.noConfusion h)
  | .imply _ _, .forAll _ _ => isFalse (fun h => Formula.noConfusion h)
  | .imply _ _, .existsQ _ _ => isFalse (fun h => Formula.noConfusion h)
  | .imply _ _, .not _ => isFalse (fun h => Formula.noConfusion h)
  | .equals _ _, .const _ => isFalse (fun h => Formula.noConfusion h)
  | .equals _ _, .varspec _ => isFalse (fun h => Formula.noConfusion h)
  | .equals _ _, .atom _ _ => isFalse (fun h => Formula.noConfusion h)
  | .equals _ _, .or _ => isFalse (fun h => Formula.noConfusion h)
  | .equals _ _, .and _ => isFalse (fun h => Formula.noConfusion h)
  | .equals _ _, .imply _ _ => isFalse (fun h => Formula.noConfusion h)
  | .equals x0 x1, .equals y0 y1 =>
    match Formula.decEq x0 y0, Formula.decEq x1 y1 with
    | isTrue h0, isTrue h1 => isTrue (by rw [h0, h1])
    | isFalse h0, _ => isFalse (fun hh => h0 (by cases hh; rfl))
    | _, isFalse h1 => isFalse (fun hh => h1 (by cases hh; rfl))
  | .equals _ _, .when _ _ => isFalse (fun h => Formula.noConfusion h)
  | .equals _ _, .forAll _ _ => isFalse (fun h => Formula.noConfusion h)
  | .equals _ _, .existsQ _ _ => isFalse (fun h => Formula.noConfusion h)
  | .equals _ _, .not _ => isFalse (fun h => Formula.noConfusion h)
  | .when _ _, .const _ => isFalse (fun h => Formula.noConfusion h)
  | .when _ _, .varspec _ => isFalse (fun h => Formula.noConfusion h)
  | .when _ _, .atom _ _ => isFalse (fun h => Formula.noConfusion h)
  | .when _ _, .or _ => isFalse (fun h => Formula.noConfusion h)
  | .when _ _, .and _ => isFalse (fun h => Formula.noConfusion h)
  | .when _ _, .imply _ _ => isFalse (fun h => Formula.noConfusion h)
  | .when _ _, .equals _ _ => isFalse (fun h => Formula.noConfusion h)
  | .when x0 x1, .when y0 y1 =>
    match Formula.decEq x0 y0, Formula.decEq x1 y1 with
    | isTrue h0, isTrue h1 => isTrue (by rw [h0, h1])
    | isFalse h0, _ => isFalse (fun hh => h0 (by cases hh; rfl))
    | _, isFalse h1 => isFalse (fun hh => h1 (by cases hh; rfl))
  | .when _ _, .forAll _ _ => isFalse (fun h => Formula.noConfusion h)
  | .when _ _, .existsQ _ _ => isFalse (fun h => Formula.noConfusion h)
  | .when _ _, .not _ => isFalse (fun h => Formula.noConfusion h)
  | .forAll _ _, .const _ => isFalse (fun h => Formula.noConfusion h)
  | .forAll _ _, .varspec _ => isFalse (fun h => Formula.noConfusion h)
  | .forAll _ _, .atom _ _ => isFalse (fun h => Formula.noConfusion h)
  | .forAll _ _, .or _ => isFalse (fun h => Formula.noConfusion h)
  | .forAll _ _, .and _ => isFalse (fun h => Formula.noConfusion h)
  | .forAll _ _, .imply _ _ => isFalse (fun h => Formula.noConfusion h)
  | .forAll _ _, .equals _ _ => isFalse (fun h => Formula.noConfusion h)
  | .forAll _ _, .when _ _ => isFalse (fun h => Formula.noConfusion h)
  | .forAll x0 x1, .forAll y0 y1 =>
    match Formula.decEq x0 y0, Formula.decEq x1 y1 with
    | isTrue h0, isTrue h1 => isTrue (by rw [h0, h1])
    | isFalse h0, _ => isFalse (fun hh => h0 (by cases hh; rfl))
    | _, isFalse h1 => isFalse (fun hh => h1 (by cases hh; rfl))
  | .forAll _ _, .existsQ _ _ => isFalse (fun h => Formula.noConfusion h)
  | .forAll _ _, .not _ => isFalse (fun h => Formula.noConfusion h)
  | .existsQ _ _, .const _ => isFalse (fun h => Formula.noConfusion h)
  | .existsQ _ _, .varspec _ => isFalse (fun h => Formula.noConfusion h)
  | .existsQ _ _, .atom _ _ => isFalse (fun h => Formula.noConfusion h)
  | .existsQ _ _, .or _ => isFalse (fun h => Formula.noConfusion h)
  | .existsQ _ _, .and _ => isFalse (fun h => Formula.noConfusion h)
  | .existsQ _ _, .imply _ _ => isFalse (fun h => Formula.noConfusion h)
  | .existsQ _ _, .equals _ _ => isFalse (fun h => Formula.noConfusion h)
  | .existsQ _ _, .when _ _ => isFalse (fun h => Formula.noConfusion h)
  | .existsQ _ _, .forAll _ _ => isFalse (fun h => Formula.noConfusion h)
  | .existsQ x0 x1, .existsQ y0 y1 =>
    match Formula.decEq x0 y0, Formula.decEq x1 y1 with
    | isTrue h0, isTrue h1 => isTrue (by rw [h0, h1])
    | isFalse h0, _ => isFalse (fun hh => h0 (by cases hh; rfl))
    | _, isFalse h1 => isFalse (fun hh => h1 (by cases hh; rfl))
  | .existsQ _ _, .not _ => isFalse (fun h => Formula.noConfusion h)
  | .not _, .const _ => isFalse (fun h => Formula.noConfusion h)
  | .not _, .varspec _ => isFalse (fun h => Formula.noConfusion h)
  | .not _, .atom _ _ => isFalse (fun h => Formula.noConfusion h)
  | .not _, .or _ => isFalse (fun h => Formula.noConfusion h)
  | .not _, .and _ => isFalse (fun h => Formula.noConfusion h)
  | .not _, .imply _ _ => isFalse (fun h => Formula.noConfusion h)
  | .not _, .equals _ _ => isFalse (fun h => Formula.noConfusion h)
  | .not _, .when _ _ => isFalse (fun h => Formula.noConfusion h)
  | .not _, .forAll _ _ => isFalse (fun h => Formula.noConfusion h)
  | .not _, .existsQ _ _ => isFalse (fun h => Formula.noConfusion h)
  | .not x0, .not y0 =>
    match Formula.decEq x0 y0 with
    | isTrue h0 => isTrue (by rw [h0])
    | isFalse h0 => isFalse (fun hh => h0 (by cases hh; rfl))

/-- Decidable equality for lists of formulas (Python list `==`). -/
def Formula.decEqList : (a b : List Formula) → Decidable (a = b)
  | [], [] => isTrue rfl
  | [], _ :: _ => isFalse (fun h => List.noConfusion h)
  | _ :: _, [] => isFalse (fun h => List.noConfusion h)
  | f1 :: r1, f2 :: r2 =>
    match Formula.decEq f1 f2, Formula.decEqList r1 r2 with
    | isTrue h0, isTrue h1 => isTrue (by rw [h0, h1])
    | isFalse h0, _ => isFalse (fun hh => h0 (by cases hh; rfl))
    | _, isFalse h1 => isFalse (fun hh => h1 (by cases hh; rfl))

end

instance : DecidableEq Formula := Formula.decEq

/-- A world, mirroring `expressions.World`: a set of (ground) atoms plus the
`sets` dictionary mapping type names to ordered lists of object identifiers.
Python dictionaries preserve insertion order, so `sets` is an association
list. -/
structure World : Type where
  atoms : Finset Formula
  sets : List (String × List String)
deriving DecidableEq

/-- Dictionary lookup for an association list (first entry with the key wins),
mirroring a Python `dict[key]` access that may raise `KeyError` (`none`). -/
def dlookup {α : Type} (d : List (String × α)) (k : String) : Option α :=
  (d.find? (fun p => p.1 == k)).map Prod.snd

mutual

/-- Mirrors `substitute` / the `substitute` methods of every formula class in
`expressions.py`.  Notably `Exists.substitute` (line 316 of the source)
constructs a `ForAll`, not an `Exists`; the embedding reproduces that
faithfully.  The `varspec` case is unreachable from the source recursion
(quantifiers do not substitute into their variable specification); the actual
Python class `VariableSpec` has no `substitute` method at all. -/
def Formula.substitute : Formula → String → String → Formula
  | Formula.const v, vr, vl => if v = vr then Formula.const vl else Formula.const v
  | Formula.varspec elems, _, _ => Formula.varspec elems
  | Formula.atom n args, vr, vl => Formula.atom n (Formula.substituteList args vr vl)
  | Formula.or ops, vr, vl => Formula.or (Formula.substituteList ops vr vl)
  | Formula.and ops, vr, vl => Formula.and (Formula.substituteList ops vr vl)
  | Formula.imply a c, vr, vl => Formula.imply (a.substitute vr vl) (c.substitute vr vl)
  | Formula.equals l r, vr, vl => Formula.equals (l.substitute vr vl) (r.substitute vr vl)
  | Formula.when c e, vr, vl => Formula.when (c.substitute vr vl) (e.substitute vr vl)
  | Formula.forAll spec body, vr, vl => Formula.forAll spec (body.substitute vr vl)
  | Formula.existsQ spec body, vr, vl => Formula.forAll spec (body.substitute vr vl)
  | Formula.not p, vr, vl => Formula.not (p.substitute vr vl)

/-- Element-wise substitution into an argument/operand list, mirroring the
`for`-loops in `Atom.substitute`, `Or.substitute` and `And.substitute`. -/
def Formula.substituteList : List Formula → String → String → List Formula
  | [], _, _ => []
  | f :: rest, vr, vl => f.substitute vr vl :: Formula.substituteList rest vr vl

end

/-- Mirrors the set-selection prelude shared by `ForAll.get_expanded_for_all`
and `Exists.is_modeled_by`: the code first reads `world.sets[""]`
unconditionally (a missing `""` key raises), then, when the variable
specification has three elements, reads `world.sets[spec.elements[2]]`.
Returns the bound variable's name (`spec.elements[0]`) and the domain to
iterate.  Only a `VariableSpec` operand is supported (as produced by
`make_expression` for well-formed quantifiers). -/
def quantInfo (spec : Formula) (w : World) : Option (String × List String) :=
  match spec with
  | Formula.varspec elems =>
    match dlookup w.sets "" with
    | none => none
    | some d0 =>
      match elems with
      | [] => none
      | name :: _ =>
        if elems.length == 3 then
          match dlookup w.sets (elems.getD 2 "") with
          | none => none
          | some d => some (name, d)
        else
          some (name, d0)
  | _ => none

/-- The quantifier expansion of `ForAll.get_expanded_for_all`: one substituted
copy of the body per element of the domain. -/
def quantExpansion (name : String) (dom : List String) (body : Formula) : List Formula :=
  dom.map (fun v => body.substitute name v)

mutual

/-- Mirrors the `is_modeled_by` methods of `expressions.py`.  The fuel bounds
the recursion through quantifier expansion (which is not structurally
decreasing); `none` models a Python run-time error or fuel exhaustion.
`Constant` and `When` fall back to the base-class `is_modeled_by` returning
`False`; `VariableSpec` is not a `LogicalFormula` subclass, so asking it for
`is_modeled_by` would raise (`none`). -/
def is_modeled_by : Nat → Formula → World → Option Bool
  | 0, _, _ => none
  | Nat.succ fuel, f, w =>
    match f with
    | Formula.const _ => some false
    | Formula.varspec _ => none
    | Formula.atom n args => some (decide (Formula.atom n args ∈ w.atoms))
    | Formula.or ops => anyModeled fuel ops w
    | Formula.and ops => allModeled fuel ops w
    | Formula.imply a c =>
      match is_modeled_by fuel a w with
      | none => none
      | some false => some true
      | some true => is_modeled_by fuel c w
    | Formula.equals l r => some (decide (l = r))
    | Formula.when _ _ => some false
    | Formula.forAll spec body =>
      match quantInfo spec w with
      | none => none
      | some (name, dom) => is_modeled_by fuel (Formula.and (quantExpansion name dom body)) w
    | Formula.existsQ spec body =>
      match quantInfo spec w with
      | none => none
      | some (name, dom) => is_modeled_by fuel (Formula.or (quantExpansion name dom body)) w
    | Formula.not p =>
      match is_modeled_by fuel p w with
      | none => none
      | some b => some (!b)
termination_by fuel f w => (fuel, 0)

/-- The short-circuiting loop of `Or.is_modeled_by` (`break` on the first
operand that is modeled). -/
def anyModeled : Nat → List Formula → World → Option Bool
  | _, [], _ => some false
  | fuel, op :: rest, w =>
    match is_modeled_by fuel op w with
    | none => none
    | some true => some true
    | some false => anyModeled fuel rest w
termination_by fuel ops w => (fuel, ops.length + 1)

/-- The short-circuiting loop of `And.is_modeled_by` (`break` on the first
operand that is not modeled). -/
def allModeled : Nat → List Formula → World → Option Bool
  | _, [], _ => some true
  | fuel, op :: rest, w =>
    match is_modeled_by fuel op w with
    | none => none
    | some false => some false
    | some true => allModeled fuel rest w
termination_by fuel ops w => (fuel, ops.length + 1)

end

mutual

/-- Mirrors the `get_changes` methods of `expressions.py`.  Variants that do
not override the base-class method (`Constant`, `Or`, `Imply`, `Equals`,
`Exists`) return Python `None`, which makes every caller that indexes the
result crash; both situations are modelled as `none` here.  `Not.get_changes`
is embedded exactly as written in the source (lines 331–340): when the operand
is modeled it is deleted, otherwise it is *added*. -/
def get_changes : Nat → Formula → World → Option (Finset Formula × Finset Formula)
  | 0, _, _ => none
  | Nat.succ fuel, f, w =>
    match f with
    | Formula.atom n args =>
      match is_modeled_by fuel (Formula.atom n args) w with
      | none => none
      | some true => some (∅, ∅)
      | some false => some ({Formula.atom n args}, ∅)
    | Formula.and ops => changesList fuel ops w
    | Formula.when c e =>
      match is_modeled_by fuel c w with
      | none => none
      | some true => get_changes fuel e w
      | some false => some (∅, ∅)
    | Formula.forAll spec body =>
      match quantInfo spec w with
      | none => none
      | some (name, dom) => get_changes fuel (Formula.and (quantExpansion name dom body)) w
    | Formula.not p =>
      match is_modeled_by fuel p w with
      | none => none
      | some true => some (∅, {p})
      | some false => some ({p}, ∅)
    | _ => none
termination_by fuel f w => (fuel, 0)

/-- The accumulation loop of `And.get_changes`: component-wise union of the
children's change sets; a child without change sets crashes the loop. -/
def changesList : Nat → List Formula → World → Option (Finset Formula × Finset Formula)
  | _, [], _ => some (∅, ∅)
  | fuel, op :: rest, w =>
    match get_changes fuel op w with
    | none => none
    | some (a1, d1) =>
      match changesList fuel rest w with
      | none => none
      | some (a2, d2) => some (a1 ∪ a2, d1 ∪ d2)
termination_by fuel ops w => (fuel, ops.length + 1)

end

/-- Mirrors `World.apply` (`expressions.py` lines 13–23): take the effect's
change sets, add the additions, then subtract the deletions; the `sets`
dictionary is deep-copied, hence equal in content.  If `get_changes` returns
Python `None` (or raises), subscripting `changes[0]` crashes: `none`. -/
def World.apply (fuel : Nat) (w : World) (effect : Formula) : Option World :=
  match get_changes fuel effect w with
  | none => none
  | some (adds, dels) => some ⟨(w.atoms ∪ adds) \ dels, w.sets⟩

/-! ## A* search driver (`pathfinding.py`) -/

/-- A graph edge, mirroring the `graph.Edge` objects consumed by `astar`:
a target node, a numeric cost and a display name. -/
structure Edge (ν : Type) : Type where
  target : ν
  cost : Int
  name : String
deriving DecidableEq

/-- The "node info" tuples `(f, i, node, g, parent, edge)` pushed onto the
open priority queue (`pathfinding.py` lines 64–74): priority `f`, a tiebreak
counter, the node, the accumulated cost `g`, the parent's node info and the
edge leading here. -/
inductive NodeInfo (ν : Type) : Type where
  | mk : Int → Nat → ν → Int → Option (NodeInfo ν) → Option (Edge ν) → NodeInfo ν

/-- Priority `f` (tuple component 0). -/
def NodeInfo.f {ν : Type} : NodeInfo ν → Int
  | .mk f _ _ _ _ _ => f

/-- Tiebreak counter `i` (tuple component 1). -/
def NodeInfo.tb {ν : Type} : NodeInfo ν → Nat
  | .mk _ i _ _ _ _ => i

/-- The node (tuple component 2). -/
def NodeInfo.node {ν : Type} : NodeInfo ν → ν
  | .mk _ _ n _ _ _ => n

/-- Accumulated cost `g` (tuple component 3). -/
def NodeInfo.g {ν : Type} : NodeInfo ν → Int
  | .mk _ _ _ g _ _ => g

/-- Parent node info (tuple component 4). -/
def NodeInfo.parent {ν : Type} : NodeInfo ν → Option (NodeInfo ν)
  | .mk _ _ _ _ p _ => p

/-- Incoming edge (tuple component 5). -/
def NodeInfo.edge {ν : Type} : NodeInfo ν → Option (Edge ν)
  | .mk _ _ _ _ _ e => e

/-- The search result 4-tuple `(path, distance, visited, expanded)` returned
by `astar` (line 129); `path`/`distance` are `None` when no goal was found. -/
structure AResult (ν : Type) : Type where
  path : Option (List (Edge ν))
  dist : Option Int
  visited : Nat
  expanded : Nat
deriving DecidableEq

/-- Mirrors `get_edge_path` (`pathfinding.py` lines 27–35): walk the parent
chain collecting the incoming edges, skipping absent ones, and reverse — i.e.
ancestors' edges come first. -/
def get_edge_path {ν : Type} : NodeInfo ν → List (Edge ν)
  | .mk _ _ _ _ parent edge =>
    (match parent with
     | some p => get_edge_path p
     | none => []) ++
    (match edge with
     | some e => [e]
     | none => [])

/-- Mirrors `get_node_index_in_open_list` (lines 19–24): index of the first
open-queue entry whose node has the target's id (`none` for the source's -1).
Node identity is equality of the node type. -/
def get_node_index_in_open_list {ν : Type} [DecidableEq ν]
    (openL : List (NodeInfo ν)) (node : ν) : Option Nat :=
  openL.findIdx? (fun info => info.node == node)

/-- The junk entry used as the (never reached) default when reading the entry
at an index returned by `get_node_index_in_open_list`. -/
def junkInfo {ν : Type} (n : ν) : NodeInfo ν := NodeInfo.mk 0 0 n 0 none none

/-- Mirrors the neighbor loop of one `astar` expansion (`pathfinding.py`
lines 95–123).  For each edge: increment the tiebreak counter, compute
`g' = g + cost` and `f' = g' + h(target, edge)`; skip targets in the closed
list; push a new entry when the target is not on the open queue; when it is,
replace the entry when its priority is strictly greater than `f'`, otherwise
leave the queue unchanged.  A `heapq.heappush` is modelled as appending the
entry (the queue is read as a multiset by `popMin`). -/
def processEdges {ν : Type} [DecidableEq ν] (h : ν → Option (Edge ν) → Int)
    (cur : NodeInfo ν) (closed : List ν) :
    List (Edge ν) → List (NodeInfo ν) → Nat → List (NodeInfo ν) × Nat
  | [], openL, i => (openL, i)
  | e :: rest, openL, i =>
    let i' := i + 1
    let acc := cur.g + e.cost
    let fv := acc + h e.target (some e)
    if e.target ∈ closed then
      processEdges h cur closed rest openL i'
    else
      match get_node_index_in_open_list openL e.target with
      | none =>
        processEdges h cur closed rest
          (openL ++ [NodeInfo.mk fv i' e.target acc (some cur) (some e)]) i'
      | some idx =>
        if (openL.getD idx (junkInfo e.target)).f > fv then
          processEdges h cur closed rest
            ((openL.eraseIdx idx) ++ [NodeInfo.mk fv i' e.target acc (some cur) (some e)]) i'
        else
          processEdges h cur closed rest openL i'

/-- Select the entry that `heapq.heappop` returns: the minimum under the
lexicographic order on `(f, tiebreak)` (tiebreak counters are distinct along
a run, so the comparison never reaches the later tuple components).  Returns
that entry and the remaining entries in their original order. -/
def selectMin {ν : Type} (a : NodeInfo ν) :
    List (NodeInfo ν) → NodeInfo ν × List (NodeInfo ν)
  | [] => (a, [])
  | b :: rest =>
    if b.f < a.f ∨ (b.f = a.f ∧ b.tb < a.tb) then
      let p := selectMin b rest
      (p.1, a :: p.2)
    else
      let p := selectMin a rest
      (p.1, b :: p.2)

/-- `heapq.heappop` on the open queue: `none` when the queue is empty. -/
def popMin {ν : Type} : List (NodeInfo ν) → Option (NodeInfo ν × List (NodeInfo ν))
  | [] => none
  | a :: rest => some (selectMin a rest)

/-- The main `while` loop of `astar` (`pathfinding.py` lines 77–129), with an
explicit fuel bound (`none` = fuel exhausted before the loop finished).  Pop
the minimum entry, append its node to the closed list, return the
reconstructed path and statistics if it satisfies the goal, otherwise process
its outgoing edges and continue.  On queue exhaustion the result carries
`path = none`, `dist = none` and the counters `len(open) + len(closed)` and
`len(closed)`. -/
def astarLoop {ν : Type} [DecidableEq ν] (nb : ν → List (Edge ν))
    (h : ν → Option (Edge ν) → Int) (goal : ν → Bool) :
    Nat → List (NodeInfo ν) → List ν → Nat → Option (AResult ν)
  | 0, _, _, _ => none
  | Nat.succ fuel, openL, closed, i =>
    match popMin openL with
    | none => some ⟨none, none, 0 + closed.length, closed.length⟩
    | some (cur, openRest) =>
      let closed' := closed ++ [cur.node]
      if goal cur.node = true ∧ cur.node ∈ closed' then
        some ⟨some (get_edge_path cur), some cur.g,
              openRest.length + closed'.length, closed'.length⟩
      else
        let p := processEdges h cur closed' (nb cur.node) openRest i
        astarLoop nb h goal fuel p.1 closed' p.2

/-- The entry `(0, 0, start, 0, None, None)` pushed before the loop
(`pathfinding.py` line 74): its priority is the literal `0`. -/
def startEntry {ν : Type} (start : ν) : NodeInfo ν :=
  NodeInfo.mk 0 0 start 0 none none

/-- Mirrors `astar(start, heuristic, goal)`: initialize the open queue with
the start entry, the closed list empty and the tiebreak counter at 0, then
run the loop.  The heuristic takes the node and the (optional) incoming edge;
the source only ever calls it with a real edge. -/
def astar {ν : Type} [DecidableEq ν] (nb : ν → List (Edge ν))
    (h : ν → Option (Edge ν) → Int) (goal : ν → Bool)
    (fuel : Nat) (start : ν) : Option (AResult ν) :=
  astarLoop nb h goal fuel [NodeInfo.mk 0 0 start 0 none none] [] 0

/-! ## World-set construction (`planner.py`) -/

/-- A Python value stored in a world-sets dictionary entry: either an object
identifier (a string) or a nested list (which `merge_dictionaries` produces
for keys present in both input dictionaries). -/
inductive SVal : Type where
  | str : String → SVal
  | lst : List SVal → SVal

mutual

/-- Structural decidable equality for `SVal` (Python `==` on strings and
lists). -/
def SVal.decEq : (a b : SVal) → Decidable (a = b)
  | .str x, .str y =>
    match instDecidableEqString x y with
    | isTrue h0 => isTrue (by rw [h0])
    | isFalse h0 => isFalse (fun hh => h0 (by cases hh; rfl))
  | .str _, .lst _ => isFalse (fun h => SVal.noConfusion h)
  | .lst _, .str _ => isFalse (fun h => SVal.noConfusion h)
  | .lst x, .lst y =>
    match SVal.decEqList x y with
    | isTrue h0 => isTrue (by rw [h0])
    | isFalse h0 => isFalse (fun hh => h0 (by cases hh; rfl))

/-- Decidable equality for lists of `SVal`. -/
def SVal.decEqList : (a b : List SVal) → Decidable (a = b)
  | [], [] => isTrue rfl
  | [], _ :: _ => isFalse (fun h => List.noConfusion h)
  | _ :: _, [] => isFalse (fun h => List.noConfusion h)
  | f1 :: r1, f2 :: r2 =>
    match SVal.decEq f1 f2, SVal.decEqList r1 r2 with
    | isTrue h0, isTrue h1 => isTrue (by rw [h0, h1])
    | isFalse h0, _ => isFalse (fun hh => h0 (by cases hh; rfl))
    | _, isFalse h1 => isFalse (fun hh => h1 (by cases hh; rfl))

end

instance : DecidableEq SVal := SVal.decEq

/-- Whether a dictionary (insertion-ordered association list) contains a key
(Python's `key in dict`). -/
def hasKey {α : Type} (d : List (String × α)) (k : String) : Bool :=
  d.any (fun p => p.1 == k)

/-- Python `dict[key] = value`: overwrite in place when the key exists
(keeping its position), otherwise append a new entry. -/
def dictSet {α : Type} (d : List (String × α)) (k : String) (v : α) :
    List (String × α) :=
  if hasKey d k then d.map (fun p => if p.1 == k then (k, v) else p)
  else d ++ [(k, v)]

/-- Mirrors `merge_dictionaries` (`planner.py` lines 33–39): start from
`{**dict1, **dict2}` (dict1's keys first, common keys carrying dict2's
value, then dict2-only keys), and for every key present in both inputs
replace its value by the two-element list `[dict2[key], dict1[key]]` — the
two original lists become *elements* of the merged value. -/
def merge_dictionaries (d1 d2 : List (String × List SVal)) :
    List (String × List SVal) :=
  (d1.map (fun p =>
    if hasKey d2 p.1 then
      (p.1, [SVal.lst ((dlookup d2 p.1).getD []), SVal.lst p.2])
    else p)) ++
  d2.filter (fun p => !(hasKey d1 p.1))

/-- Mirrors `get_all_child_objects` (`planner.py` lines 42–52): concatenate,
over the given subtypes, the world-set entry when the subtype is a key of the
world sets, and otherwise recurse through the type hierarchy.  A subtype
missing from both dictionaries raises `KeyError`; the recursion through the
(possibly cyclic) hierarchy is fuel-bounded; both give `none`. -/
def get_all_child_objects (ws : List (String × List SVal))
    (types : List (String × List String)) :
    Nat → List String → Option (List SVal)
  | 0, _ => none
  | Nat.succ _, [] => some []
  | Nat.succ fuel, st :: rest =>
    let this_part :=
      match dlookup ws st with
      | some objs => some objs
      | none =>
        match dlookup types st with
        | none => none
        | some subs => get_all_child_objects ws types fuel subs
    match this_part, get_all_child_objects ws types fuel rest with
    | some a, some b => some (a ++ b)
    | _, _ => none

/-- The iteration of `complete_hierarchy` (`planner.py` lines 55–68) over the
remaining `(type, subtypes)` entries, threading the mutated world sets: the
empty-named type is skipped; otherwise the type's child objects are appended
to its existing entry or installed as a new entry. -/
def complete_hierarchy_go (types : List (String × List String)) (fuel : Nat) :
    List (String × List String) → List (String × List SVal) →
    Option (List (String × List SVal))
  | [], ws => some ws
  | (t, subs) :: rest, ws =>
    if t.length = 0 then complete_hierarchy_go types fuel rest ws
    else
      match get_all_child_objects ws types fuel subs with
      | none => none
      | some children =>
        let ws' :=
          if hasKey ws t then dictSet ws t (((dlookup ws t).getD []) ++ children)
          else ws ++ [(t, children)]
        complete_hierarchy_go types fuel rest ws'

/-- Mirrors `complete_hierarchy`: fold the hierarchy completion over all
entries of the `types` dictionary in order. -/
def complete_hierarchy (fuel : Nat) (ws : List (String × List SVal))
    (types : List (String × List String)) : Option (List (String × List SVal)) :=
  complete_hierarchy_go types fuel types ws

/-- One step of the deduplicating union loop of `build_world_sets`
(lines 80–84): append the value unless it is already present. -/
def add_unique (acc : List SVal) (v : SVal) : List SVal :=
  if v ∈ acc then acc else acc ++ [v]

/-- The `all_objects` accumulation of `build_world_sets` (lines 80–84): fold
the deduplicating append over every element of every value of the mapping, in
insertion order. -/
def all_objects (ws : List (String × List SVal)) : List SVal :=
  ws.foldl (fun acc p => p.2.foldl add_unique acc) []

/-- Mirrors `build_world_sets` (`planner.py` lines 71–88): merge the domain
constants with the problem objects, complete the type hierarchy, then install
the deduplicated union of all values under the key `""`. -/
def build_world_sets (fuel : Nat) (constants objects : List (String × List SVal))
    (types : List (String × List String)) : Option (List (String × List SVal)) :=
  match complete_hierarchy fuel (merge_dictionaries constants objects) types with
  | none => none
  | some ws => some (dictSet ws "" (all_objects ws))

/-- The existential formula `exists ?x . q(?x)` used against claim C2. -/
def existsQx : Formula :=
  Formula.existsQ (Formula.varspec ["?x"]) (Formula.atom "q" [Formula.const "?x"])

/-- A world with universe `{a, b}` in which `q(a)` holds but `q(b)` does not. -/
def worldQa : World :=
  World.mk {Formula.atom "q" [Formula.const "a"]} [("", ["a", "b"])]

/-- A heuristic that values every node at 5, used to refute claim C4. -/
def heuristicFive : Nat → Option (Edge Nat) → Int := fun _ _ => 5

/-- The one-entry open queue holding node 2 with priority 5 used to refute
claim C3 as stated. -/
def openFive : List (NodeInfo Nat) := [NodeInfo.mk 5 1 2 3 none none]

/-- A heuristic that values every node at 3, used to refute claim C3. -/
def heuristicThree : Nat → Option (Edge Nat) → Int := fun _ _ => 3

/-- The open-queue counter invariant for C10: every entry's tiebreak counter
is at most the current counter value, and the counters of the entries are
pairwise distinct. -/
def OpenInv {ν : Type} (openL : List (NodeInfo ν)) (i : Nat) : Prop :=
  (∀ x ∈ openL, x.tb ≤ i) ∧ openL.Pairwise (fun a b => a.tb ≠ b.tb)

/-! ## Claims about the formula algebra and `World.apply` -/

/-- The empty-atom world used to exhibit the `Not.get_changes` defect. -/
def emptyWorld : World := World.mk ∅ []

/-- The ground atom `p()`. -/
def atomP : Formula := Formula.atom "p" []

/-- C1: the claim states that applying `and(a, not(a))` to any world yields a
world whose atoms do not contain `a` (deletion wins).  The code violates this:
on a world where `a` is absent, `Atom.get_changes` adds `a` and
`Not.get_changes` (lines 331–340) *also adds* the operand instead of deleting
it, so the deletion set is empty and the result contains `a` — contradicting
both the claim and the source's own `apply` docstring ("If an effect would
cause the same atom to be set to true and to false, it should be set to
false, i.e. removed from the set").  This theorem evaluates the embedded code
at the failing input. -/
theorem apply_and_not_keeps_atom :
    World.apply 3 emptyWorld (Formula.and [atomP, Formula.not atomP]) =
      some (World.mk {atomP} []) ∧
    atomP ∈ (World.mk {atomP} []).atoms := by
  constructor
  · simp [World.apply, get_changes, changesList, is_modeled_by, emptyWorld, atomP]
  · decide



/-- C2: the claim states that substituting into an existential formula
returns an existential formula with the substituted body, so modeling is
still an existential over the domain.  The code violates this:
`Exists.substitute` (`expressions.py` line 316) constructs a `ForAll`.  On
`worldQa` the original existential is modeled (`q(a)` holds) while the
substituted formula — now a universal — is not (`q(b)` fails), although the
substituted variable `?z` does not even occur in the formula. -/
theorem exists_substitute_returns_forall :
    Formula.substitute existsQx "?z" "c" =
      Formula.forAll (Formula.varspec ["?x"]) (Formula.atom "q" [Formula.const "?x"]) ∧
    is_modeled_by 5 existsQx worldQa = some true ∧
    is_modeled_by 5 (Formula.substitute existsQx "?z" "c") worldQa = some false := by
  refine ⟨rfl, ?_, ?_⟩
  · simp [is_modeled_by, anyModeled, allModeled, quantInfo, quantExpansion, dlookup,
      Formula.substitute, Formula.substituteList, existsQx, worldQa]
  · simp [is_modeled_by, anyModeled, allModeled, quantInfo, quantExpansion, dlookup,
      Formula.substitute, Formula.substituteList, existsQx, worldQa]

/-- C5: effect determinism.  Whenever the effect's change sets are defined,
`World.apply` returns exactly the world with atoms `(w.atoms ∪ adds) \ dels`
and the same `sets` — union first, set difference second
(`expressions.py` lines 19–21). -/
theorem apply_effect_determinism (fuel : Nat) (w : World) (e : Formula)
    (adds dels : Finset Formula)
    (h : get_changes fuel e w = some (adds, dels)) :
    World.apply fuel w e = some (World.mk ((w.atoms ∪ adds) \ dels) w.sets) := by
  unfold World.apply
  rw [h]

/-- Witness for C5 at a concrete input: the atom effect `p()` on the empty
world has change sets `({p()}, ∅)`, and `apply` yields the promised world. -/
theorem apply_effect_determinism_witness :
    World.apply 2 emptyWorld atomP =
      some (World.mk ((emptyWorld.atoms ∪ {atomP}) \ ∅) emptyWorld.sets) :=
  apply_effect_determinism 2 emptyWorld atomP {atomP} ∅
    (by simp [get_changes, is_modeled_by, emptyWorld, atomP])

/-- C7: frame effect of `World.apply`.  In this embedding worlds are
immutable values, so the argument world is unchanged by construction (the
source achieves this with `copy.deepcopy`, cf. the `my_tests` mutation
check); the verifiable content is that whenever `apply` returns a world, its
`sets` dictionary is equal (in content) to the input world's — only the atom
set may differ. -/
theorem apply_preserves_sets (fuel : Nat) (w : World) (e : Formula) (w' : World)
    (h : World.apply fuel w e = some w') : w'.sets = w.sets := by
  unfold World.apply at h
  cases hg : get_changes fuel e w with
  | none => rw [hg] at h; cases h
  | some p =>
    rw [hg] at h
    cases p with
    | mk adds dels =>
      injection h with h
      subst h
      rfl

/-- Witness for C7 at a concrete input: applying `p()` to a world with a
non-trivial `sets` dictionary preserves that dictionary. -/
theorem apply_preserves_sets_witness :
    (World.mk {atomP} [("t", ["a"])]).sets = (World.mk ∅ [("t", ["a"])]).sets :=
  apply_preserves_sets 2 (World.mk ∅ [("t", ["a"])]) atomP
    (World.mk {atomP} [("t", ["a"])])
    (by simp [World.apply, get_changes, is_modeled_by, atomP])

/-! ## Claims about the A* driver -/

/-- C4 (amended): `astar` begins by pushing the entry
`(0, 0, start, g=0, parent=nil, edge=nil)` — the initial priority is the
literal `0` (`pathfinding.py` line 74), not `h(start, nil)`; the two agree
only when the heuristic value happens to be `0`. -/
theorem astar_initial_push {ν : Type} [DecidableEq ν] (nb : ν → List (Edge ν))
    (h : ν → Option (Edge ν) → Int) (goal : ν → Bool) (fuel : Nat) (start : ν) :
    astar nb h goal fuel start = astarLoop nb h goal fuel [startEntry start] [] 0 ∧
    (startEntry start).f = 0 ∧ (startEntry start).tb = 0 ∧
    (startEntry start).g = 0 ∧ (startEntry start).parent = none ∧
    (startEntry start).edge = none :=
  ⟨rfl, rfl, rfl, rfl, rfl, rfl⟩


/-- Counterexample to C4 as stated: with the heuristic constantly 5, the
entry `astar` pushes for the start node has priority 0, not
`h(start, nil) = 5`. -/
theorem astar_initial_push_counterexample :
    (startEntry (0 : Nat)).f ≠ heuristicFive 0 none := by decide

/-- C3 (amended): one step of the neighbor loop for an edge whose target is
not closed.  Three cases (`pathfinding.py` lines 106–121): target not on the
open queue — push a new entry; target on the open queue with strictly greater
priority — replace that entry (delete it, push the new one); target on the
open queue with priority less than or equal to the new `f'` — the queue is
left unchanged (no entry is inserted).  The claim as stated omits the third
case, asserting insertion whenever no strictly-greater entry exists. -/
theorem astar_open_update {ν : Type} [DecidableEq ν] (h : ν → Option (Edge ν) → Int)
    (cur : NodeInfo ν) (closed : List ν) (e : Edge ν) (openL : List (NodeInfo ν))
    (i : Nat) (hcl : e.target ∉ closed) :
    (get_node_index_in_open_list openL e.target = none →
      processEdges h cur closed [e] openL i =
        (openL ++ [NodeInfo.mk (cur.g + e.cost + h e.target (some e)) (i + 1)
          e.target (cur.g + e.cost) (some cur) (some e)], i + 1)) ∧
    (∀ idx, get_node_index_in_open_list openL e.target = some idx →
      ((openL.getD idx (junkInfo e.target)).f > cur.g + e.cost + h e.target (some e) →
        processEdges h cur closed [e] openL i =
          ((openL.eraseIdx idx) ++ [NodeInfo.mk (cur.g + e.cost + h e.target (some e)) (i + 1)
            e.target (cur.g + e.cost) (some cur) (some e)], i + 1)) ∧
      (¬ (openL.getD idx (junkInfo e.target)).f > cur.g + e.cost + h e.target (some e) →
        processEdges h cur closed [e] openL i = (openL, i + 1))) := by
  refine ⟨?_, ?_⟩
  · intro hidx
    simp [processEdges, hcl, hidx]
  · intro idx hidx
    refine ⟨?_, ?_⟩
    · intro hf
      have hf2 : cur.g + e.cost + h e.target (some e) <
          (openL[idx]?.getD (junkInfo e.target)).f := by simpa using hf
      simp [processEdges, hcl, hidx, hf]
      intro h2
      exact absurd h2 (not_le.mpr hf2)
    · intro hf
      have hf2 : ¬ cur.g + e.cost + h e.target (some e) <
          (openL[idx]?.getD (junkInfo e.target)).f := by simpa using hf
      simp [processEdges, hcl, hidx, hf]
      intro h2
      exact absurd h2 hf2

/-- Witness for C3 (amended) at a concrete input: expanding the start node of
an otherwise empty search over one edge of cost 1 to node 1 pushes the
expected new entry with tiebreak 1. -/
theorem astar_open_update_witness :
    processEdges (fun _ _ => (0 : Int)) (startEntry (0 : Nat)) [] [Edge.mk 1 1 "e"] [] 0 =
      ([NodeInfo.mk 1 1 1 1 (some (startEntry 0)) (some (Edge.mk 1 1 "e"))], 1) :=
  (astar_open_update (fun _ _ => (0 : Int)) (startEntry (0 : Nat)) [] (Edge.mk 1 1 "e")
    [] 0 (by decide)).1 rfl



/-- Counterexample to C3 as stated: node 2 is on the open queue with priority
`f'' = 5` and the new priority is also `f' = 0 + 2 + 3 = 5`; since
`f'' > f'` fails, the claim's "otherwise" branch demands that a new entry be
inserted, but the code leaves the queue unchanged — its length does not
grow. -/
theorem astar_open_update_counterexample :
    get_node_index_in_open_list openFive 2 = some 0 ∧
    (openFive.getD 0 (junkInfo 2)).f = 5 ∧
    (startEntry (0 : Nat)).g + (Edge.mk 2 2 "e").cost +
      heuristicThree 2 (some (Edge.mk 2 2 "e")) = 5 ∧
    processEdges heuristicThree (startEntry (0 : Nat)) [] [Edge.mk 2 2 "e"] openFive 0 =
      (openFive, 1) ∧
    (processEdges heuristicThree (startEntry (0 : Nat)) [] [Edge.mk 2 2 "e"] openFive 0).1.length ≠
      openFive.length + 1 := by
  refine ⟨rfl, rfl, rfl, rfl, by decide⟩

/-- Helper for C8: whichever fuel, open queue, closed list and counter the
loop is started from, a returned result whose path is `none` also has cost
`none`, and its visited count equals its expanded count (the loop only
produces a `none` path on queue exhaustion, where `len(open) = 0`, so
`len(open) + len(closed) = len(closed)`). -/
theorem astarLoop_path_none {ν : Type} [DecidableEq ν] (nb : ν → List (Edge ν))
    (h : ν → Option (Edge ν) → Int) (goal : ν → Bool) :
    ∀ (fuel : Nat) (openL : List (NodeInfo ν)) (closed : List ν) (i : Nat)
      (r : AResult ν),
      astarLoop nb h goal fuel openL closed i = some r → r.path = none →
      r.dist = none ∧ r.visited = r.expanded := by
  intro fuel
  induction fuel with
  | zero =>
    intro openL closed i r hr
    exact absurd hr (by simp [astarLoop])
  | succ fuel ih =>
    intro openL closed i r hr hpath
    cases hpop : popMin openL with
    | none =>
      simp only [astarLoop, hpop] at hr
      injection hr with hr
      subst hr
      simp
    | some p =>
      obtain ⟨cur, openRest⟩ := p
      simp only [astarLoop, hpop] at hr
      by_cases hg : goal cur.node = true ∧ cur.node ∈ closed ++ [cur.node]
      · rw [if_pos hg] at hr
        injection hr with hr
        subst hr
        simp at hpath
      · rw [if_neg hg] at hr
        exact ih _ _ _ _ hr hpath

/-- C8: when the open queue is exhausted without reaching a goal, `astar`
returns `path = none` and `dist = none` while the counters remain populated:
the loop's exhaustion branch returns `(None, None, len(open)+len(closed),
len(closed))` with the open queue empty, so the returned visited count equals
the returned expanded count (both `len(closed)`). -/
theorem astar_unreachable_goal {ν : Type} [DecidableEq ν] (nb : ν → List (Edge ν))
    (h : ν → Option (Edge ν) → Int) (goal : ν → Bool) (fuel : Nat) (start : ν)
    (r : AResult ν) (hrun : astar nb h goal fuel start = some r)
    (hpath : r.path = none) :
    r.dist = none ∧ r.visited = r.expanded ∧
    (∀ (closed : List ν) (i : Nat), astarLoop nb h goal (fuel + 1) [] closed i =
      some (AResult.mk none none (0 + closed.length) closed.length)) := by
  refine ⟨(astarLoop_path_none nb h goal fuel _ _ _ r hrun hpath).1,
          (astarLoop_path_none nb h goal fuel _ _ _ r hrun hpath).2, ?_⟩
  intro closed i
  rw [astarLoop]
  rfl

/-- Witness for C8 at a concrete input: a search from node 0 with no edges
and an unsatisfiable goal exhausts the queue; the returned result has cost
`none` and equal visited/expanded counts. -/
theorem astar_unreachable_goal_witness :
    (AResult.mk none none 1 1 : AResult Nat).dist = none ∧
    (AResult.mk none none 1 1 : AResult Nat).visited =
      (AResult.mk none none 1 1 : AResult Nat).expanded :=
  ⟨(astar_unreachable_goal (fun _ : Nat => []) (fun _ _ => 0) (fun _ => false) 2 0
      (AResult.mk none none 1 1) rfl rfl).1,
   (astar_unreachable_goal (fun _ : Nat => []) (fun _ _ => 0) (fun _ => false) 2 0
      (AResult.mk none none 1 1) rfl rfl).2.1⟩

/-- C9: if the goal predicate already holds for the start node, `astar` pops
the start entry, immediately reconstructs the (empty) edge path and returns
`(path = [], cost = 0, visited = 1, expanded = 1)` — an empty list, distinct
from the `none` of a failed search.  The neighbor generator `nb` is
universally quantified and absent from the right-hand side: the result is the
same for every `nb`, i.e. the start node's neighbors are never consulted. -/
theorem astar_goal_at_start {ν : Type} [DecidableEq ν] (nb : ν → List (Edge ν))
    (h : ν → Option (Edge ν) → Int) (goal : ν → Bool) (fuel : Nat) (start : ν)
    (hgoal : goal start = true) :
    astar nb h goal (fuel + 1) start = some (AResult.mk (some []) (some 0) 1 1) := by
  unfold astar
  rw [astarLoop]
  simp [popMin, selectMin, hgoal, get_edge_path, startEntry, NodeInfo.node, NodeInfo.g]

/-- Witness for C9 at a concrete input: the always-true goal on start node 0
returns the empty path, cost 0 and both counters 1. -/
theorem astar_goal_at_start_witness :
    astar (fun _ : Nat => []) (fun _ _ => (0 : Int)) (fun _ => true) 1 0 =
      some (AResult.mk (some []) (some 0) 1 1) :=
  astar_goal_at_start (fun _ : Nat => []) (fun _ _ => (0 : Int)) (fun _ => true) 0 0 rfl


/-- `selectMin` returns one of the entries together with the remaining ones:
the pair reassembles to a permutation of the input. -/
theorem selectMin_perm {ν : Type} :
    ∀ (l : List (NodeInfo ν)) (a : NodeInfo ν),
      ((selectMin a l).1 :: (selectMin a l).2).Perm (a :: l) := by
  intro l
  induction l with
  | nil => intro a; simp [selectMin]
  | cons b rest ih =>
    intro a
    by_cases hc : b.f < a.f ∨ (b.f = a.f ∧ b.tb < a.tb)
    · simp only [selectMin, if_pos hc]
      exact (List.Perm.swap a (selectMin b rest).1 (selectMin b rest).2).trans
        ((ih b).cons a)
    · simp only [selectMin, if_neg hc]
      exact ((List.Perm.swap b (selectMin a rest).1 (selectMin a rest).2).trans
        ((ih a).cons b)).trans (List.Perm.swap a b rest)

/-- The invariant is monotone in the counter bound. -/
theorem OpenInv.mono {ν : Type} {openL : List (NodeInfo ν)} {i j : Nat}
    (hinv : OpenInv openL i) (hij : i ≤ j) : OpenInv openL j :=
  ⟨fun x hx => le_trans (hinv.1 x hx) hij, hinv.2⟩

/-- The invariant survives removing entries (a sublist of the queue). -/
theorem OpenInv.sublist {ν : Type} {openL openL' : List (NodeInfo ν)} {i : Nat}
    (hsub : openL'.Sublist openL) (hinv : OpenInv openL i) : OpenInv openL' i :=
  ⟨fun x hx => hinv.1 x (hsub.subset hx), hinv.2.sublist hsub⟩

/-- Pushing an entry carrying the freshly incremented counter `i + 1`
preserves the invariant at bound `i + 1`: the new counter strictly exceeds
every counter already on the queue. -/
theorem OpenInv.push {ν : Type} {openL : List (NodeInfo ν)} {i : Nat}
    (hinv : OpenInv openL i) (fv acc : Int) (t : ν) (par : Option (NodeInfo ν))
    (ed : Option (Edge ν)) :
    OpenInv (openL ++ [NodeInfo.mk fv (i + 1) t acc par ed]) (i + 1) := by
  constructor
  · intro x hx
    rcases List.mem_append.mp hx with hx | hx
    · exact le_trans (hinv.1 x hx) (Nat.le_succ i)
    · rcases List.mem_singleton.mp hx with rfl
      exact le_refl _
  · rw [List.pairwise_append]
    refine ⟨hinv.2, List.pairwise_singleton _ _, ?_⟩
    intro a ha b hb
    rcases List.mem_singleton.mp hb with rfl
    have ha2 : a.tb ≤ i := hinv.1 a ha
    have hb2 : (NodeInfo.mk fv (i + 1) t acc par ed).tb = i + 1 := rfl
    rw [hb2]
    omega

/-- `heapq.heappop` preserves the counter invariant on the remaining queue. -/
theorem popMin_inv {ν : Type} {openL rest : List (NodeInfo ν)} {c : NodeInfo ν}
    {i : Nat} (hpop : popMin openL = some (c, rest)) (hinv : OpenInv openL i) :
    OpenInv rest i := by
  cases openL with
  | nil => cases hpop
  | cons a l =>
    have hperm : ((selectMin a l).1 :: (selectMin a l).2).Perm (a :: l) :=
      selectMin_perm l a
    simp only [popMin] at hpop
    injection hpop with hpop
    have hc : (selectMin a l).1 = c := congrArg Prod.fst hpop
    have hrest : (selectMin a l).2 = rest := congrArg Prod.snd hpop
    rw [hc, hrest] at hperm
    constructor
    · intro x hx
      exact hinv.1 x (hperm.subset (List.mem_cons_of_mem c hx))
    · have hpw : (c :: rest).Pairwise (fun a b : NodeInfo ν => a.tb ≠ b.tb) := by
        refine (List.Perm.pairwise_iff ?_ hperm).mpr hinv.2
        intro x y hxy hyx
        exact hxy hyx.symm
      exact (List.pairwise_cons.mp hpw).2

/-- One full neighbor loop of `astar` preserves the counter invariant: the
counter is incremented before every push, every pushed entry carries the
fresh counter value, and the final counter bounds all counters on the
queue. -/
theorem processEdges_inv {ν : Type} [DecidableEq ν] (h : ν → Option (Edge ν) → Int)
    (cur : NodeInfo ν) (closed : List ν) :
    ∀ (es : List (Edge ν)) (openL : List (NodeInfo ν)) (i : Nat),
      OpenInv openL i →
      OpenInv (processEdges h cur closed es openL i).1
        (processEdges h cur closed es openL i).2 ∧
      i ≤ (processEdges h cur closed es openL i).2 := by
  intro es
  induction es with
  | nil =>
    intro openL i hinv
    exact ⟨hinv, le_refl i⟩
  | cons e rest ih =>
    intro openL i hinv
    by_cases hcl : e.target ∈ closed
    · simp only [processEdges, if_pos hcl]
      have hres := ih openL (i + 1) (hinv.mono (Nat.le_succ i))
      exact ⟨hres.1, le_trans (Nat.le_succ i) hres.2⟩
    · cases hidx : get_node_index_in_open_list openL e.target with
      | none =>
        simp only [processEdges, if_neg hcl, hidx]
        have hpush := hinv.push (cur.g + e.cost + h e.target (some e)) (cur.g + e.cost)
          e.target (some cur) (some e)
        have hres := ih _ (i + 1) hpush
        exact ⟨hres.1, le_trans (Nat.le_succ i) hres.2⟩
      | some idx =>
        by_cases hf : (openL.getD idx (junkInfo e.target)).f >
            cur.g + e.cost + h e.target (some e)
        · simp only [processEdges, if_neg hcl, hidx, if_pos hf]
          have herase : OpenInv (openL.eraseIdx idx) i :=
            hinv.sublist (List.eraseIdx_sublist openL idx)
          have hpush := herase.push (cur.g + e.cost + h e.target (some e))
            (cur.g + e.cost) e.target (some cur) (some e)
          have hres := ih _ (i + 1) hpush
          exact ⟨hres.1, le_trans (Nat.le_succ i) hres.2⟩
        · simp only [processEdges, if_neg hcl, hidx, if_neg hf]
          have hres := ih openL (i + 1) (hinv.mono (Nat.le_succ i))
          exact ⟨hres.1, le_trans (Nat.le_succ i) hres.2⟩

/-- C10: distinctness of the tiebreak counters.  The start entry carries
counter 0 and satisfies the invariant; popping preserves the invariant;
the neighbor loop preserves it while only increasing the counter; and under
the invariant no two open-queue entries agree on their first two tuple
components `(f, tiebreak)`, so the heap's tuple comparison never has to
compare the node objects in component 2. -/
theorem astar_tiebreak_distinct {ν : Type} [DecidableEq ν]
    (h : ν → Option (Edge ν) → Int) (cur : NodeInfo ν) (closed : List ν)
    (es : List (Edge ν)) (openL : List (NodeInfo ν)) (i : Nat) (s : ν) :
    ((startEntry s).tb = 0 ∧ OpenInv [startEntry s] 0) ∧
    (∀ (c : NodeInfo ν) (rest : List (NodeInfo ν)),
      popMin openL = some (c, rest) → OpenInv openL i → OpenInv rest i) ∧
    (OpenInv openL i →
      OpenInv (processEdges h cur closed es openL i).1
        (processEdges h cur closed es openL i).2 ∧
      i ≤ (processEdges h cur closed es openL i).2) ∧
    (OpenInv openL i → openL.Pairwise (fun a b => (a.f, a.tb) ≠ (b.f, b.tb))) := by
  refine ⟨⟨rfl, ?_, ?_⟩, ?_, ?_, ?_⟩
  · intro x hx
    rcases List.mem_singleton.mp hx with rfl
    exact le_refl _
  · exact List.pairwise_singleton _ _
  · intro c rest hpop hinv
    exact popMin_inv hpop hinv
  · intro hinv
    exact processEdges_inv h cur closed es openL i hinv
  · intro hinv
    refine hinv.2.imp ?_
    intro a b hne hpair
    exact hne (congrArg Prod.snd hpair)

/-- Witness for C10 at a concrete input: starting from the empty queue with
counter 0 (which satisfies the invariant), processing one edge yields a queue
satisfying the invariant with a counter at least 0. -/
theorem astar_tiebreak_distinct_witness :
    OpenInv (processEdges (fun _ _ => (0 : Int)) (startEntry (0 : Nat)) []
        [Edge.mk 1 1 "e"] [] 0).1
      (processEdges (fun _ _ => (0 : Int)) (startEntry (0 : Nat)) []
        [Edge.mk 1 1 "e"] [] 0).2 ∧
    0 ≤ (processEdges (fun _ _ => (0 : Int)) (startEntry (0 : Nat)) []
        [Edge.mk 1 1 "e"] [] 0).2 :=
  (astar_tiebreak_distinct (fun _ _ => (0 : Int)) (startEntry (0 : Nat)) []
    [Edge.mk 1 1 "e"] [] 0 0).2.2.1 (by simp [OpenInv])

/-! ## Claims about `build_world_sets` -/

/-- Membership after one deduplicating append. -/
theorem mem_add_unique (acc : List SVal) (a v : SVal) :
    v ∈ add_unique acc a ↔ v ∈ acc ∨ v = a := by
  unfold add_unique
  by_cases ha : a ∈ acc
  · rw [if_pos ha]
    constructor
    · exact Or.inl
    · rintro (hv | rfl)
      · exact hv
      · exact ha
  · rw [if_neg ha]
    simp

/-- One deduplicating append preserves `Nodup`. -/
theorem add_unique_nodup (acc : List SVal) (a : SVal) (h : acc.Nodup) :
    (add_unique acc a).Nodup := by
  unfold add_unique
  by_cases ha : a ∈ acc
  · rwa [if_pos ha]
  · rw [if_neg ha]
    refine List.Nodup.append h (List.nodup_singleton a) ?_
    intro x hx hxa
    rcases List.mem_singleton.mp hxa with rfl
    exact ha hx

/-- Folding the deduplicating append over a list: membership is membership in
the accumulator or in the list. -/
theorem foldl_add_unique_mem :
    ∀ (l : List SVal) (acc : List SVal) (v : SVal),
      v ∈ l.foldl add_unique acc ↔ v ∈ acc ∨ v ∈ l := by
  intro l
  induction l with
  | nil => intro acc v; simp
  | cons a rest ih =>
    intro acc v
    rw [List.foldl_cons, ih, mem_add_unique]
    constructor
    · rintro ((hv | rfl) | hv)
      · exact Or.inl hv
      · exact Or.inr (List.mem_cons_self _ _)
      · exact Or.inr (List.mem_cons_of_mem a hv)
    · rintro (hv | hv)
      · exact Or.inl (Or.inl hv)
      · rcases List.mem_cons.mp hv with rfl | hv
        · exact Or.inl (Or.inr rfl)
        · exact Or.inr hv

/-- Folding the deduplicating append preserves `Nodup`. -/
theorem foldl_add_unique_nodup :
    ∀ (l : List SVal) (acc : List SVal), acc.Nodup → (l.foldl add_unique acc).Nodup := by
  intro l
  induction l with
  | nil => intro acc h; exact h
  | cons a rest ih =>
    intro acc h
    exact ih _ (add_unique_nodup acc a h)

/-- Folding the deduplicating append only appends, and what it appends is a
sublist of the folded list (insertion order preserved). -/
theorem foldl_add_unique_append :
    ∀ (l : List SVal) (acc : List SVal),
      ∃ ex, l.foldl add_unique acc = acc ++ ex ∧ ex.Sublist l := by
  intro l
  induction l with
  | nil => intro acc; exact ⟨[], by simp, List.nil_sublist _⟩
  | cons a rest ih =>
    intro acc
    by_cases ha : a ∈ acc
    · rcases ih acc with ⟨ex, hex, hsub⟩
      refine ⟨ex, ?_, hsub.trans (List.sublist_cons_self a rest)⟩
      have hstep : add_unique acc a = acc := by
        unfold add_unique
        rw [if_pos ha]
      rw [List.foldl_cons, hstep, hex]
    · rcases ih (acc ++ [a]) with ⟨ex, hex, hsub⟩
      refine ⟨a :: ex, ?_, hsub.cons₂ a⟩
      have hstep : add_unique acc a = acc ++ [a] := by
        unfold add_unique
        rw [if_neg ha]
      rw [List.foldl_cons, hstep, hex]
      simp

/-- Membership in the two-level `all_objects` fold. -/
theorem all_objects_go_mem :
    ∀ (ws : List (String × List SVal)) (acc : List SVal) (v : SVal),
      v ∈ ws.foldl (fun acc p => p.2.foldl add_unique acc) acc ↔
        v ∈ acc ∨ ∃ p ∈ ws, v ∈ p.2 := by
  intro ws
  induction ws with
  | nil => intro acc v; simp
  | cons p rest ih =>
    intro acc v
    rw [List.foldl_cons, ih, foldl_add_unique_mem]
    constructor
    · rintro ((hv | hv) | ⟨q, hq, hvq⟩)
      · exact Or.inl hv
      · exact Or.inr ⟨p, List.mem_cons_self p rest, hv⟩
      · exact Or.inr ⟨q, List.mem_cons_of_mem p hq, hvq⟩
    · rintro (hv | ⟨q, hq, hvq⟩)
      · exact Or.inl (Or.inl hv)
      · rcases List.mem_cons.mp hq with rfl | hq
        · exact Or.inl (Or.inr hvq)
        · exact Or.inr ⟨q, hq, hvq⟩

/-- `Nodup` of the two-level `all_objects` fold. -/
theorem all_objects_go_nodup :
    ∀ (ws : List (String × List SVal)) (acc : List SVal),
      acc.Nodup → (ws.foldl (fun acc p => p.2.foldl add_unique acc) acc).Nodup := by
  intro ws
  induction ws with
  | nil => intro acc h; exact h
  | cons p rest ih =>
    intro acc h
    exact ih _ (foldl_add_unique_nodup p.2 acc h)

/-- The two-level fold appends a sublist of the concatenation of all values:
insertion order across the dictionary traversal is preserved. -/
theorem all_objects_go_append :
    ∀ (ws : List (String × List SVal)) (acc : List SVal),
      ∃ ex, ws.foldl (fun acc p => p.2.foldl add_unique acc) acc = acc ++ ex ∧
        ex.Sublist ((ws.map Prod.snd).flatten) := by
  intro ws
  induction ws with
  | nil => intro acc; exact ⟨[], by simp, by simp⟩
  | cons p rest ih =>
    intro acc
    rcases foldl_add_unique_append p.2 acc with ⟨e1, he1, hsub1⟩
    rcases ih (acc ++ e1) with ⟨e2, he2, hsub2⟩
    refine ⟨e1 ++ e2, ?_, ?_⟩
    · rw [List.foldl_cons, he1, he2, List.append_assoc]
    · simpa using List.Sublist.append hsub1 hsub2

/-- Every element of `all_objects ws` is an element of some value of `ws` and
conversely: `sets[""]` collects exactly the top-level elements of the other
values. -/
theorem all_objects_mem (ws : List (String × List SVal)) (v : SVal) :
    v ∈ all_objects ws ↔ ∃ p ∈ ws, v ∈ p.2 := by
  rw [all_objects, all_objects_go_mem]
  simp

/-- `all_objects` is duplicate-free. -/
theorem all_objects_nodup (ws : List (String × List SVal)) :
    (all_objects ws).Nodup :=
  all_objects_go_nodup ws [] List.nodup_nil

/-- `all_objects` is a sublist of the concatenation of all values: it keeps
the first occurrence of each element in traversal order. -/
theorem all_objects_sublist (ws : List (String × List SVal)) :
    (all_objects ws).Sublist ((ws.map Prod.snd).flatten) := by
  rcases all_objects_go_append ws [] with ⟨ex, hex, hsub⟩
  rw [all_objects, hex]
  simpa using hsub

/-- When no key of `d1` occurs in `d2` and vice versa, `merge_dictionaries`
is plain concatenation: no value is nested. -/
theorem merge_dictionaries_disjoint (d1 d2 : List (String × List SVal))
    (h1 : ∀ p ∈ d1, hasKey d2 p.1 = false)
    (h2 : ∀ p ∈ d2, hasKey d1 p.1 = false) :
    merge_dictionaries d1 d2 = d1 ++ d2 := by
  unfold merge_dictionaries
  have hmap : d1.map (fun p =>
      if hasKey d2 p.1 then
        (p.1, [SVal.lst ((dlookup d2 p.1).getD []), SVal.lst p.2])
      else p) = d1 := by
    rw [List.map_congr_left, List.map_id]
    intro p hp
    rw [h1 p hp]
    simp
  have hfilter : d2.filter (fun p => !(hasKey d1 p.1)) = d2 := by
    rw [List.filter_eq_self]
    intro p hp
    rw [h2 p hp]
    rfl
  rw [hmap, hfilter]

/-- A key absent from a dictionary is never found. -/
theorem dlookup_eq_none_of_not_hasKey {α : Type} (d : List (String × α)) (k : String)
    (h : hasKey d k = false) : dlookup d k = none := by
  unfold dlookup
  rw [List.find?_eq_none.mpr]
  · rfl
  · intro p hp
    intro hpk
    have : d.any (fun p => p.1 == k) = true := List.any_eq_true.mpr ⟨p, hp, hpk⟩
    rw [hasKey] at h
    rw [h] at this
    cases this

/-- Overwriting an existing key in place makes the lookup return the new
value. -/
theorem dlookup_map_overwrite {α : Type} :
    ∀ (d : List (String × α)) (k : String) (v : α), hasKey d k = true →
      dlookup (d.map (fun p => if p.1 == k then (k, v) else p)) k = some v := by
  intro d
  induction d with
  | nil => intro k v h; cases h
  | cons p rest ih =>
    intro k v h
    by_cases hp : (p.1 == k) = true
    · have hfp : (if p.1 == k then (k, v) else p) = (k, v) := by
        rw [if_pos hp]
      unfold dlookup
      rw [List.map_cons, hfp, List.find?_cons_of_pos _ (by simp)]
      rfl
    · have hfp : (if p.1 == k then (k, v) else p) = p := by
        rw [if_neg hp]
      have hrest : hasKey rest k = true := by
        rcases List.any_eq_true.mp h with ⟨q, hq, hqk⟩
        rcases List.mem_cons.mp hq with rfl | hq
        · exact absurd hqk hp
        · exact List.any_eq_true.mpr ⟨q, hq, hqk⟩
      have hih := ih k v hrest
      unfold dlookup at hih ⊢
      rw [List.map_cons, hfp, List.find?_cons_of_neg _ (by simpa using hp)]
      exact hih

/-- Appending a new binding for an absent key makes the lookup return the new
value. -/
theorem dlookup_append_new {α : Type} :
    ∀ (d : List (String × α)) (k : String) (v : α), hasKey d k = false →
      dlookup (d ++ [(k, v)]) k = some v := by
  intro d
  induction d with
  | nil =>
    intro k v _
    unfold dlookup
    rw [List.nil_append, List.find?_cons_of_pos _ (by simp)]
    rfl
  | cons p rest ih =>
    intro k v h
    have hparts : ((p.1 == k) = false) ∧ hasKey rest k = false := by
      rw [hasKey, List.any_cons] at h
      exact Bool.or_eq_false_iff.mp h
    have hih := ih k v hparts.2
    unfold dlookup at hih ⊢
    rw [List.cons_append, List.find?_cons_of_neg _ (by simp [hparts.1])]
    exact hih

/-- `dict[k] = v` makes `dict[k]` return `v`, whether or not the key was
already present. -/
theorem dlookup_dictSet {α : Type} (d : List (String × α)) (k : String) (v : α) :
    dlookup (dictSet d k v) k = some v := by
  unfold dictSet
  by_cases hk : hasKey d k
  · rw [if_pos hk]
    exact dlookup_map_overwrite d k v (by simpa using hk)
  · rw [if_neg hk]
    exact dlookup_append_new d k v (by simpa using hk)

/-- C6 (amended): after world-set construction, the `""` entry is the
deduplicated, insertion-ordered list of the *top-level elements* of the other
values of the mapping: it contains an element exactly when some value of the
completed mapping contains it, it is duplicate-free, and it is a sublist of
the concatenation of those values (preserving first-occurrence order).  When
no type name is declared both in the domain's constants and the problem's
objects, merging is plain concatenation, so those elements are the declared
object identifiers themselves; in a clash, `merge_dictionaries` nests the two
declared lists as a two-element value, whose member *lists* — not the
identifiers inside them — then appear in `sets[""]` (see the
counterexample). -/
theorem build_world_sets_union (fuel : Nat)
    (constants objects : List (String × List SVal))
    (types : List (String × List String)) (ws : List (String × List SVal))
    (hws : complete_hierarchy fuel (merge_dictionaries constants objects) types = some ws) :
    build_world_sets fuel constants objects types =
      some (dictSet ws "" (all_objects ws)) ∧
    dlookup (dictSet ws "" (all_objects ws)) "" = some (all_objects ws) ∧
    (all_objects ws).Nodup ∧
    (∀ v, v ∈ all_objects ws ↔ ∃ p ∈ ws, v ∈ p.2) ∧
    (all_objects ws).Sublist ((ws.map Prod.snd).flatten) ∧
    ((∀ p ∈ constants, hasKey objects p.1 = false) →
      (∀ p ∈ objects, hasKey constants p.1 = false) →
      merge_dictionaries constants objects = constants ++ objects) := by
  refine ⟨?_, dlookup_dictSet ws "" (all_objects ws), all_objects_nodup ws,
    fun v => all_objects_mem ws v, all_objects_sublist ws,
    merge_dictionaries_disjoint constants objects⟩
  unfold build_world_sets
  rw [hws]

/-- Witness for C6 (amended) at a concrete input: constants `{s: [x]}` and
objects `{t: [y]}` with an empty hierarchy; the `""` entry is `[x, y]`, the
deduplicated union of the values in insertion order. -/
theorem build_world_sets_union_witness :
    build_world_sets 1 [("s", [SVal.str "x"])] [("t", [SVal.str "y"])] [] =
      some (dictSet [("s", [SVal.str "x"]), ("t", [SVal.str "y"])] ""
        (all_objects [("s", [SVal.str "x"]), ("t", [SVal.str "y"])])) ∧
    (all_objects [("s", [SVal.str "x"]), ("t", [SVal.str "y"])]).Nodup ∧
    (all_objects [("s", [SVal.str "x"]), ("t", [SVal.str "y"])]).Sublist
      (([("s", [SVal.str "x"]), ("t", [SVal.str "y"])].map Prod.snd).flatten) :=
  ⟨(build_world_sets_union 1 [("s", [SVal.str "x"])] [("t", [SVal.str "y"])] []
      [("s", [SVal.str "x"]), ("t", [SVal.str "y"])] rfl).1,
   (build_world_sets_union 1 [("s", [SVal.str "x"])] [("t", [SVal.str "y"])] []
      [("s", [SVal.str "x"]), ("t", [SVal.str "y"])] rfl).2.2.1,
   (build_world_sets_union 1 [("s", [SVal.str "x"])] [("t", [SVal.str "y"])] []
      [("s", [SVal.str "x"]), ("t", [SVal.str "y"])] rfl).2.2.2.2.1⟩

/-- Counterexample to C6 as stated: the type name `t` is declared both in the
domain's constants (value `[a]`) and the problem's objects (value `[b]`).
`merge_dictionaries` stores `[[b], [a]]` for `t`, and the `""` entry built
from it is `[[b], [a]]` — the two nested lists.  The object identifiers `a`
and `b`, which the claim requires `sets[""]` to collect, are *not* elements
of `sets[""]`. -/
theorem build_world_sets_counterexample :
    build_world_sets 1 [("t", [SVal.str "a"])] [("t", [SVal.str "b"])] [] =
      some [("t", [SVal.lst [SVal.str "b"], SVal.lst [SVal.str "a"]]),
            ("", [SVal.lst [SVal.str "b"], SVal.lst [SVal.str "a"]])] ∧
    SVal.str "a" ∉ [SVal.lst [SVal.str "b"], SVal.lst [SVal.str "a"]] ∧
    SVal.str "b" ∉ [SVal.lst [SVal.str "b"], SVal.lst [SVal.str "a"]] := by
  refine ⟨rfl, ?_, ?_⟩
  · decide
  · decide
